import Mathlib

/-!
Verification of the `task-list` command interpreter (`src/golang/list.go`).

The Go file `list.go` defines the `TaskList` type: a registry mapping project
names to task sequences, an ID counter, and the command interpreter
(`execute`, `Run`) together with the operations `show`, `today`, `add`,
`addProject`, `addTask`, `check`, `uncheck`, `setDone`, `getTaskBy`,
`nextID`, `deadline`, `help`, `error`.

The value types `Task`, `Identifier` and `Deadline` (constructors `NewTask`,
`NewIdentifier`, `NewDeadline`, methods `GetID`, `IsDone`, `GetDescription`,
`GetDeadline`, `IsPreviousToCurrentDate`) live in Go files that are not part
of the sources; those are modelled from the spec (sections 3, 4.1-4.3) and
marked as such.

Modelling decisions:
* The Go `map[string][]*Task` is embedded as an association list with unique
  keys; `map` insertion overwrites the value of an existing key in place.
* Output written with `Fprintf`/`Fprintln` to `l.out` is collected in an
  `out : List String` field, one entry per write.
* A Go runtime panic caused by an out-of-bounds slice index (e.g.
  `args[2]` when `args` has two elements) is represented by the
  `ExecOutcome.panicked` constructor: the process crashes, no further
  output or state change happens.
* `lastID` is `int64` in Go and `l.lastID++` in `nextID` wraps around on
  overflow; the increment is embedded as `int64wrap (lastID + 1)` with the
  explicit two's-complement reduction modulo 2^64.
-/

namespace Golang

/-- Modelled from the spec (section 3, "Deadline"): a calendar date with
year, month and day and no time-of-day component.  The Go `Deadline` source
file is not under `src/`. -/
structure Date where
  year : Nat
  month : Nat
  day : Nat
deriving DecidableEq, Repr

/-- Modelled from the spec (section 3, "Deadline"): comparison "is on or
before" between calendar dates, lexicographic on (year, month, day). -/
def Date.le (a b : Date) : Bool :=
  if a.year ≠ b.year then decide (a.year < b.year)
  else if a.month ≠ b.month then decide (a.month < b.month)
  else decide (a.day ≤ b.day)

/-- Left-pad the decimal numeral of `n` with zeros to width `w`. -/
def padNum (w n : Nat) : String :=
  let s := toString n
  String.mk (List.replicate (w - s.length) '0') ++ s

/-- Modelled from the spec (sections 4.2, 6): rendering of a `Deadline` in
the fixed `YYYY-MM-DD` layout. -/
def Date.render (d : Date) : String :=
  padNum 4 d.year ++ "-" ++ padNum 2 d.month ++ "-" ++ padNum 2 d.day

/-- Decimal value of a list of digit characters. -/
def digitsVal (cs : List Char) : Nat :=
  cs.foldl (fun acc c => acc * 10 + (c.toNat - 48)) 0

/-- Modelled from the spec (section 4.2, `parseDeadline`): the accepted
format is the single literal layout `YYYY-MM-DD`; wrong separators, wrong
digit counts or an out-of-range month/day fail.  The Go `NewDeadline`
source file is not under `src/`. -/
def NewDeadline (s : String) : Option Date :=
  match s.toList with
  | [y1, y2, y3, y4, s1, m1, m2, s2, d1, d2] =>
    if s1 = '-' ∧ s2 = '-' ∧ [y1, y2, y3, y4, m1, m2, d1, d2].all Char.isDigit then
      let m := digitsVal [m1, m2]
      let d := digitsVal [d1, d2]
      if 1 ≤ m ∧ m ≤ 12 ∧ 1 ≤ d ∧ d ≤ 31 then
        some ⟨digitsVal [y1, y2, y3, y4], m, d⟩
      else none
    else none
  | _ => none

/-- Modelled from the spec (section 4.1, `parseIdentifier`): a non-empty
string of decimal digits whose value fits the 64-bit signed ID width; any
non-digit character, empty string, or overflow fails.  The Go
`NewIdentifier` source file is not under `src/`. -/
def NewIdentifier (s : String) : Option Int :=
  if s.isEmpty then none
  else if s.toList.all Char.isDigit then
    let v := digitsVal s.toList
    if v ≤ 9223372036854775807 then some (Int.ofNat v) else none
  else none

/-- Modelled from the spec (section 3, "Task"): id, description, done flag,
optional deadline.  The Go `Task` source file is not under `src/`. -/
structure Task where
  id : Int
  description : String
  done : Bool
  deadline : Option Date
deriving DecidableEq, Repr

/-- Modelled from the spec (section 4.3): `new(id, description, done)`
creates a task with no deadline. -/
def NewTask (id : Int) (description : String) (done : Bool) : Task :=
  { id := id, description := description, done := done, deadline := none }

/-- Modelled from the spec: accessor for the task id. -/
def Task.GetID (t : Task) : Int := t.id

/-- Modelled from the spec: accessor for the done flag. -/
def Task.IsDone (t : Task) : Bool := t.done

/-- Modelled from the spec: accessor for the description. -/
def Task.GetDescription (t : Task) : String := t.description

/-- Modelled from the spec (section 4.2): a deadline and "no deadline"
render as distinct tokens; the absent state renders as the empty string
(scenario 1 shows `[ ] 1: buy milk` with nothing between `:` and the
space). -/
def Task.GetDeadline (t : Task) : String :=
  match t.deadline with
  | none => ""
  | some d => d.render

/-- Modelled from the spec (section 4.3, `isDueBy`): true iff a deadline is
set and it is on or before the reference date; false if absent.  The
reference date is the process's current date, passed explicitly here. -/
def Task.IsPreviousToCurrentDate (ref : Date) (t : Task) : Bool :=
  match t.deadline with
  | none => false
  | some d => d.le ref

/-- Association-list lookup; embeds Go map indexing `m[k]` (comma-ok). -/
def alistGet (ps : List (String × List Task)) (k : String) : Option (List Task) :=
  match ps with
  | [] => none
  | (n, v) :: rest => if n = k then some v else alistGet rest k

/-- Association-list insert; embeds Go map assignment `m[k] = v`: the value
of an existing key is overwritten, a new key is added. -/
def alistInsert (ps : List (String × List Task)) (k : String) (v : List Task) :
    List (String × List Task) :=
  match ps with
  | [] => [(k, v)]
  | (n, w) :: rest => if n = k then (k, v) :: rest else (n, w) :: alistInsert rest k v

/-- The text command used to quit the task manager (`list.go` line 43). -/
def Quit : String := "quit"

/-- The interactive prompt (`list.go` line 44). -/
def prompt : String := "> "

/-- Split a character list at every occurrence of `sep`, keeping empty
groups; the result is never empty. -/
def splitOnChar (sep : Char) : List Char → List (List Char)
  | [] => [[]]
  | c :: cs =>
    let r := splitOnChar sep cs
    if c = sep then [] :: r
    else
      match r with
      | [] => [[c]]
      | g :: gs => (c :: g) :: gs

/-- Embeds `strings.Split(cmdLine, " ")` (`list.go` line 89): split on
every single space, keeping empty fields; on the empty string the result
is `[""]`, so it is never empty. -/
def splitSpace (s : String) : List String :=
  (splitOnChar ' ' s.toList).map (fun cs => String.mk cs)

/-- Two's-complement wrap-around of an arbitrary integer into the `int64`
range `[-2^63, 2^63)`: the result of Go `int64` arithmetic whose
mathematical value is `n`. -/
def int64wrap (n : Int) : Int :=
  (n + 2 ^ 63) % 2 ^ 64 - 2 ^ 63

/-- Embeds `TaskList` (`list.go` lines 48-54): the registry of tasks grouped by
project and the ID counter; `out` collects everything written to the output
sink.  The `int64` field `lastID` is carried as an `Int`; every write to it
goes through `int64wrap`, so it always holds an `int64` value. -/
structure TaskList where
  projectTasks : List (String × List Task)
  lastID : Int
  out : List String
deriving DecidableEq, Repr

/-- Embeds `NewTaskList` (`list.go` lines 57-64): empty registry, counter at 0. -/
def NewTaskList : TaskList :=
  { projectTasks := [], lastID := 0, out := [] }

namespace TaskList

/-- Embeds `TaskList.help` (`list.go` lines 118-126). -/
def help (l : TaskList) : TaskList :=
  { l with out := l.out ++ ["Commands:\n  show\n  add project <project name>\n  add task <project name> <task description>\n  check <task ID>\n  uncheck <task ID>\n  \n"] }

/-- Embeds `TaskList.error` (`list.go` lines 128-130). -/
def error (l : TaskList) (command : String) : TaskList :=
  { l with out := l.out ++ ["Unknown command \"" ++ command ++ "\".\n"] }

/-- The task line written by `TaskList.show` (`list.go` lines 170-174):
`    [<X or space>] <id>:<deadline or blank> <description>`. -/
def showTaskLine (task : Task) : String :=
  "    [" ++ (if task.IsDone then "X" else " ") ++ "] " ++ toString task.GetID
    ++ ":" ++ task.GetDeadline ++ " " ++ task.GetDescription ++ "\n"

/-- The task line written by `TaskList.today` (`list.go` lines 146-150);
the Go code duplicates the format of `show` verbatim. -/
def todayTaskLine (task : Task) : String :=
  "    [" ++ (if task.IsDone then "X" else " ") ++ "] " ++ toString task.GetID
    ++ ":" ++ task.GetDeadline ++ " " ++ task.GetDescription ++ "\n"

/-- The sorted project-name slice both `show` and `today` build
(`list.go` lines 134-138 and 159-163): the registry's keys sorted
lexicographically by `sort.StringSlice`. -/
def sortedProjects (ps : List (String × List Task)) : List String :=
  List.insertionSort (· ≤ ·) (ps.map Prod.fst)

/-- The sequence of writes `TaskList.show` performs (`list.go` lines
166-177): for each project in sorted order, a header line, one line per
task, and a blank separator line. -/
def showLines (l : TaskList) : List String :=
  (sortedProjects l.projectTasks).flatMap fun project =>
    (project ++ "\n") ::
      ((alistGet l.projectTasks project).getD []).map showTaskLine ++ ["\n"]

/-- Embeds `TaskList.show` (`list.go` lines 157-178). -/
def show' (l : TaskList) : TaskList :=
  { l with out := l.out ++ showLines l }

/-- The sequence of writes `TaskList.today` performs (`list.go` lines
141-154): like `show` but only tasks with `IsPreviousToCurrentDate`. -/
def todayLines (ref : Date) (l : TaskList) : List String :=
  (sortedProjects l.projectTasks).flatMap fun project =>
    (project ++ "\n") ::
      (((alistGet l.projectTasks project).getD []).filter
        (Task.IsPreviousToCurrentDate ref)).map todayTaskLine ++ ["\n"]

/-- Embeds `TaskList.today` (`list.go` lines 132-155); `ref` is the process's
current date consulted by `IsPreviousToCurrentDate`. -/
def today (ref : Date) (l : TaskList) : TaskList :=
  { l with out := l.out ++ todayLines ref l }

/-- Embeds `TaskList.addProject` (`list.go` lines 190-192). -/
def addProject (l : TaskList) (name : String) : TaskList :=
  { l with projectTasks := alistInsert l.projectTasks name [] }

/-- Embeds `TaskList.nextID` (`list.go` lines 238-241): `l.lastID++` — an
`int64` increment, which wraps around on overflow — followed by returning
the new counter value. -/
def nextID (l : TaskList) : Int × TaskList :=
  (int64wrap (l.lastID + 1), { l with lastID := int64wrap (l.lastID + 1) })

/-- Embeds `TaskList.addTask` (`list.go` lines 194-201): fails with a printed
message when the project is absent; otherwise allocates `nextID`
(increment before assignment) and appends. -/
def addTask (l : TaskList) (projectName description : String) : TaskList :=
  match alistGet l.projectTasks projectName with
  | none =>
    { l with out := l.out ++
        ["Could not find a project with the name \"" ++ projectName ++ "\".\n"] }
  | some tasks =>
    match l.nextID with
    | (id, l') =>
      { l' with
        projectTasks := alistInsert l'.projectTasks projectName
          (tasks ++ [NewTask id description false]) }

/-- First task with the given id in a task sequence (`getTaskBy`'s inner
loop, `list.go` lines 227-231). -/
def findTaskIn (i : Int) : List Task → Option Task
  | [] => none
  | t :: ts => if t.GetID = i then some t else findTaskIn i ts

/-- First task with the given id across all projects (`getTaskBy`'s outer
loop, `list.go` lines 226-232). -/
def findTask (i : Int) : List (String × List Task) → Option Task
  | [] => none
  | (_, ts) :: ps =>
    match findTaskIn i ts with
    | some t => some t
    | none => findTask i ps

/-- Replace the first task with the given id in a task sequence by its
image under `f`; `none` when no task matches.  Embeds the in-place
mutation through the pointer `getTaskBy` returns. -/
def updateTaskIn (i : Int) (f : Task → Task) : List Task → Option (List Task)
  | [] => none
  | t :: ts =>
    if t.GetID = i then some (f t :: ts)
    else (updateTaskIn i f ts).map (t :: ·)

/-- Replace the first task with the given id across all projects by its
image under `f`; `none` when no task matches anywhere. -/
def updateTask (i : Int) (f : Task → Task) :
    List (String × List Task) → Option (List (String × List Task))
  | [] => none
  | (n, ts) :: ps =>
    match updateTaskIn i f ts with
    | some ts' => some ((n, ts') :: ps)
    | none => (updateTask i f ps).map ((n, ts) :: ·)

/-- Embeds `TaskList.getTaskBy` followed by a mutation of the found task: embeds
`setDone`/`deadline`'s pattern "look the task up, print a message and stop
on failure, otherwise mutate it in place" (`list.go` lines 219-236). -/
def mutateTaskBy (l : TaskList) (idString : String) (f : Task → Task) : TaskList :=
  match NewIdentifier idString with
  | none => { l with out := l.out ++ ["Invalid ID \"" ++ idString ++ "\".\n"] }
  | some id =>
    match updateTask id f l.projectTasks with
    | some ps => { l with projectTasks := ps }
    | none =>
      { l with out := l.out ++ ["Task with ID \"" ++ toString id ++ "\" not found.\n"] }

/-- Embeds `TaskList.setDone` (`list.go` lines 211-217). -/
def setDone (l : TaskList) (idString : String) (done : Bool) : TaskList :=
  mutateTaskBy l idString (fun t => { t with done := done })

/-- Embeds `TaskList.check` (`list.go` lines 203-205). -/
def check (l : TaskList) (idString : String) : TaskList :=
  setDone l idString true

/-- Embeds `TaskList.uncheck` (`list.go` lines 207-209). -/
def uncheck (l : TaskList) (idString : String) : TaskList :=
  setDone l idString false

/-- Embeds `TaskList.deadline` (`list.go` lines 243-255): parse the date first and
return silently on failure; only then look the task up (printing
`getTaskBy`'s messages on failure) and overwrite its deadline. -/
def deadline (l : TaskList) (id : String) (deadlineString : String) : TaskList :=
  match NewDeadline deadlineString with
  | none => l
  | some d => mutateTaskBy l id (fun t => { t with deadline := some d })

/-- Embeds `TaskList.add` (`list.go` lines 180-188).  Go evaluates
`projectName := args[1]` before inspecting `args[0]`, so a one-element
argument slice panics with an out-of-bounds index; `none` represents that
panic. -/
def add (l : TaskList) (args : List String) : Option TaskList :=
  match args with
  | [] => none
  | [_] => none
  | sub :: projectName :: rest =>
    if sub = "project" then some (addProject l projectName)
    else if sub = "task" then
      some (addTask l projectName (String.intercalate " " rest))
    else some l

/-- Outcome of `TaskList.execute` on one line: `ok` when it returns `nil`,
`err` when it returns a non-nil (usage) error, `panicked` when an
out-of-bounds slice index aborts it.  Each constructor carries the
`TaskList` state at that moment; every panic happens before any state
change or output. -/
inductive ExecOutcome
  | ok (l : TaskList)
  | err (msg : String) (l : TaskList)
  | panicked (l : TaskList)
deriving DecidableEq, Repr

/-- The `TaskList` state an outcome carries. -/
def ExecOutcome.state : ExecOutcome → TaskList
  | .ok l => l
  | .err _ l => l
  | .panicked l => l

/-- Embeds `TaskList.execute` (`list.go` lines 88-116).  The line is split on
single spaces (`strings.Split`), the first token selects the verb.  The
guards `len(args) < 2` for `add` and `deadline` correspond to the argument
list after the verb being empty; `deadline` with exactly one trailing token
reaches `args[2]` and panics, as do `check`/`uncheck` with no trailing
token (`args[1]`). -/
def execute (ref : Date) (l : TaskList) (cmdLine : String) : ExecOutcome :=
  match splitSpace cmdLine with
  | [] => .panicked l
  | command :: rest =>
    match command with
    | "show" => .ok l.show'
    | "add" =>
      match rest with
      | [] => .err "could not execute add, it requires at least 2 parameters" l
      | _ =>
        match l.add rest with
        | none => .panicked l
        | some l' => .ok l'
    | "check" =>
      match rest with
      | [] => .panicked l
      | idString :: _ => .ok (l.check idString)
    | "uncheck" =>
      match rest with
      | [] => .panicked l
      | idString :: _ => .ok (l.uncheck idString)
    | "help" => .ok l.help
    | "deadline" =>
      match rest with
      | [] => .err "could not execute deadline. Usage: deadline <taskId> <dateAsString>" l
      | [_] => .panicked l
      | idString :: dateString :: _ => .ok (l.deadline idString dateString)
    | "today" => .ok (l.today ref)
    | _ => .ok (l.error command)

/-- How one run of the command loop ended: the quit sentinel was read, the
input was exhausted, or a panic crashed the process. -/
inductive RunResult
  | quit
  | eof
  | crashed
deriving DecidableEq, Repr

/-- Result of `TaskList.Run`: how the loop ended, the final state, and the
errors forwarded to the error channel. -/
structure RunOut where
  result : RunResult
  state : TaskList
  errors : List String
deriving DecidableEq, Repr

/-- Append the prompt write `fmt.Fprint(l.out, prompt)`. -/
def putPrompt (l : TaskList) : TaskList :=
  { l with out := l.out ++ [prompt] }

/-- The loop body of `TaskList.Run` (`list.go` lines 72-85): read a line;
on the quit sentinel signal shutdown and return with no further output;
otherwise execute it, forwarding a non-nil error to the error channel, and
print the next prompt.  A panic crashes the loop. -/
def RunLoop (ref : Date) : List String → TaskList → List String → RunOut
  | [], l, errs => ⟨.eof, l, errs⟩
  | line :: rest, l, errs =>
    if line = Quit then ⟨.quit, l, errs⟩
    else
      match execute ref l line with
      | .panicked l' => ⟨.crashed, l', errs⟩
      | .ok l' => RunLoop ref rest (putPrompt l') errs
      | .err msg l' => RunLoop ref rest (putPrompt l') (errs ++ [msg])

/-- Embeds `TaskList.Run` (`list.go` lines 68-86): print the first prompt, then
run the loop over the input lines. -/
def Run (ref : Date) (l : TaskList) (lines : List String) : RunOut :=
  RunLoop ref lines (putPrompt l) []

end TaskList

end Golang

namespace Golang

/-- Reference date used to instantiate closed statements. -/
def date0 : Date := ⟨2024, 1, 1⟩

/-- A sample session state: one project `w` holding the single task with
id 1, description `milk`, not done, no deadline. -/
def sample : TaskList := (NewTaskList.addProject "w").addTask "w" "milk"

/-- All task ids stored in the registry, in registry order. -/
def idsOf (ps : List (String × List Task)) : List Int :=
  ps.flatMap fun p => p.2.map Task.id

/-- The ID-counter invariant of a session state: the counter is
non-negative, the stored ids are pairwise distinct across the whole
registry, and every stored id is positive and at most the counter. -/
def Inv (l : TaskList) : Prop :=
  0 ≤ l.lastID ∧ (idsOf l.projectTasks).Nodup ∧
    ∀ i ∈ idsOf l.projectTasks, 0 < i ∧ i ≤ l.lastID

/-- One interpreter step from `l` to `l'` keeps the ID discipline: the
invariant is preserved, the counter never decreases and advances by at
most one, and any id present afterwards was either already present or is
the (fresh) value of the new counter. -/
def StepOK (l l' : TaskList) : Prop :=
  (Inv l → Inv l') ∧ l.lastID ≤ l'.lastID ∧
    (l'.lastID = l.lastID ∨ l'.lastID = l.lastID + 1) ∧
    ∀ i ∈ idsOf l'.projectTasks, i ∈ idsOf l.projectTasks ∨ i = l'.lastID

/-- The session state reached from `sample` after `n` further input lines
`add task w`: the concrete command sequence that drives the `int64` ID
counter towards its maximum. -/
def afterAdds : Nat → TaskList
  | 0 => sample
  | n + 1 => (TaskList.execute date0 (afterAdds n) "add task w").state

theorem alistGet_insert_self (ps : List (String × List Task)) (k : String)
    (v : List Task) : alistGet (alistInsert ps k v) k = some v := by
  induction ps with
  | nil => simp [alistInsert, alistGet]
  | cons p rest ih =>
    obtain ⟨n, w⟩ := p
    by_cases h : n = k
    · simp [alistInsert, alistGet, h]
    · simp [alistInsert, alistGet, h, ih]

theorem alistGet_insert_ne (ps : List (String × List Task)) (k m : String)
    (v : List Task) (h : m ≠ k) :
    alistGet (alistInsert ps k v) m = alistGet ps m := by
  induction ps with
  | nil => simp [alistInsert, alistGet, Ne.symm h]
  | cons p rest ih =>
    obtain ⟨n, w⟩ := p
    by_cases hn : n = k
    · subst hn
      simp [alistInsert, alistGet, Ne.symm h]
    · by_cases hm : n = m
      · simp [alistInsert, alistGet, hn, hm, h]
      · simp [alistInsert, alistGet, hn, hm, ih]

/-- C1: the spec (and the code's own usage message) requires `deadline`
with anything other than exactly two trailing arguments to report a usage
error and leave all state unchanged, never reading a token out of bounds.
The code only guards `len(args) < 2`, so the line `deadline 5` (one
trailing argument) passes the guard and evaluates `args[2]`, an
out-of-bounds index: the interpreter panics instead of reporting a usage
error. -/
theorem deadline_one_arg_reads_out_of_bounds :
    TaskList.execute date0 NewTaskList "deadline 5" =
      TaskList.ExecOutcome.panicked NewTaskList := by
  rfl

/-- C2: the spec says the command loop only stops on the `quit` sentinel,
but the session whose single input line is `deadline 1` (not the quit
line) crashes: executing the line panics on an out-of-bounds token access
and the loop never reaches another prompt. -/
theorem run_crashes_without_quit :
    (TaskList.Run date0 NewTaskList ["deadline 1"]).result =
      TaskList.RunResult.crashed ∧ "deadline 1" ≠ Quit := by
  constructor
  · rfl
  · decide

/-- C8: the spec says every failure other than an `add`/`deadline` usage
error is handled locally by printing a message, with `execute` returning
`nil`.  The bare line `check` instead evaluates `args[1]` on a one-token
slice: `execute` panics — it neither prints a message nor returns. -/
theorem bare_check_panics :
    TaskList.execute date0 NewTaskList "check" =
      TaskList.ExecOutcome.panicked NewTaskList := by
  rfl

/-- C6: `createProject` (the `add project` command) maps the name to an
empty task sequence — overwriting any previous sequence for that name —
and touches nothing else: the counter, the output, and every other
project's tasks are unchanged. -/
theorem addProject_maps_name_to_empty (l : TaskList) (name : String) :
    alistGet (l.addProject name).projectTasks name = some [] ∧
    (l.addProject name).lastID = l.lastID ∧
    (l.addProject name).out = l.out ∧
    ∀ m, m ≠ name →
      alistGet (l.addProject name).projectTasks m = alistGet l.projectTasks m := by
  refine ⟨alistGet_insert_self _ _ _, rfl, rfl, fun m hm => ?_⟩
  exact alistGet_insert_ne _ _ _ _ hm

/-- Witness for C6 at a concrete state in which the project `a` already
holds a task: re-adding `a` resets it to the empty sequence and leaves
project `b` alone. -/
theorem addProject_maps_name_to_empty_witness :
    alistGet ((((NewTaskList.addProject "a").addProject "b").addTask "a"
        "milk").addProject "a").projectTasks "a" = some [] ∧
    alistGet ((((NewTaskList.addProject "a").addProject "b").addTask "a"
        "milk").addProject "a").projectTasks "b" =
      alistGet (((NewTaskList.addProject "a").addProject "b").addTask "a"
        "milk").projectTasks "b" := by
  refine ⟨(addProject_maps_name_to_empty _ "a").1,
    (addProject_maps_name_to_empty _ "a").2.2.2 "b" (by decide)⟩

theorem updateTaskIn_eq_none (i : Int) (f : Task → Task) (ts : List Task) :
    TaskList.updateTaskIn i f ts = none ↔ TaskList.findTaskIn i ts = none := by
  induction ts with
  | nil => simp [TaskList.updateTaskIn, TaskList.findTaskIn]
  | cons t ts ih =>
    by_cases h : t.GetID = i
    · simp [TaskList.updateTaskIn, TaskList.findTaskIn, h]
    · simp [TaskList.updateTaskIn, TaskList.findTaskIn, h, ih]

theorem updateTaskIn_isSome (i : Int) (f : Task → Task) {ts : List Task}
    {t : Task} (h : TaskList.findTaskIn i ts = some t) :
    ∃ ts', TaskList.updateTaskIn i f ts = some ts' := by
  cases hu : TaskList.updateTaskIn i f ts with
  | some ts' => exact ⟨ts', rfl⟩
  | none =>
    rw [updateTaskIn_eq_none] at hu
    simp [hu] at h

theorem updateTask_eq_none (i : Int) (f : Task → Task)
    (ps : List (String × List Task)) :
    TaskList.updateTask i f ps = none ↔ TaskList.findTask i ps = none := by
  induction ps with
  | nil => simp [TaskList.updateTask, TaskList.findTask]
  | cons p ps ih =>
    obtain ⟨n, ts⟩ := p
    cases hf : TaskList.findTaskIn i ts with
    | some t =>
      obtain ⟨ts', hts'⟩ := updateTaskIn_isSome i f hf
      simp [TaskList.updateTask, TaskList.findTask, hf, hts']
    | none =>
      have hu : TaskList.updateTaskIn i f ts = none :=
        (updateTaskIn_eq_none i f ts).mpr hf
      simp [TaskList.updateTask, TaskList.findTask, hf, hu, ih]

theorem updateTask_isSome (i : Int) (f : Task → Task)
    {ps : List (String × List Task)} {t : Task}
    (h : TaskList.findTask i ps = some t) :
    ∃ ps', TaskList.updateTask i f ps = some ps' := by
  cases hu : TaskList.updateTask i f ps with
  | some ps' => exact ⟨ps', rfl⟩
  | none =>
    rw [updateTask_eq_none] at hu
    simp [hu] at h

theorem updateTaskIn_some_find (i : Int) (f : Task → Task)
    (hf : ∀ u, (f u).id = u.id) {ts ts' : List Task} {t : Task}
    (hu : TaskList.updateTaskIn i f ts = some ts')
    (ht : TaskList.findTaskIn i ts = some t) :
    TaskList.findTaskIn i ts' = some (f t) := by
  induction ts generalizing ts' with
  | nil => simp [TaskList.updateTaskIn] at hu
  | cons u us ih =>
    by_cases h : u.GetID = i
    · simp [TaskList.updateTaskIn, h] at hu
      simp [TaskList.findTaskIn, h] at ht
      subst ht
      subst hu
      have hgid : (f u).GetID = i := by
        simpa [Task.GetID, hf u] using h
      simp [TaskList.findTaskIn, hgid]
    · simp [TaskList.updateTaskIn, h] at hu
      obtain ⟨us', hus', rfl⟩ := hu
      simp [TaskList.findTaskIn, h] at ht ⊢
      exact ih hus' ht

theorem updateTaskIn_twice (i : Int) (f g : Task → Task)
    (hf : ∀ u, (f u).id = u.id) {ts ts' : List Task}
    (hu : TaskList.updateTaskIn i f ts = some ts') :
    TaskList.updateTaskIn i g ts' = TaskList.updateTaskIn i (fun u => g (f u)) ts := by
  induction ts generalizing ts' with
  | nil => simp [TaskList.updateTaskIn] at hu
  | cons u us ih =>
    by_cases h : u.GetID = i
    · simp [TaskList.updateTaskIn, h] at hu
      subst hu
      have hgid : (f u).GetID = i := by
        simpa [Task.GetID, hf u] using h
      simp [TaskList.updateTaskIn, h, hgid]
    · simp [TaskList.updateTaskIn, h] at hu
      obtain ⟨us', hus', rfl⟩ := hu
      simp [TaskList.updateTaskIn, h, ih hus']

theorem updateTask_some_find (i : Int) (f : Task → Task)
    (hf : ∀ u, (f u).id = u.id) {ps ps' : List (String × List Task)} {t : Task}
    (hu : TaskList.updateTask i f ps = some ps')
    (ht : TaskList.findTask i ps = some t) :
    TaskList.findTask i ps' = some (f t) := by
  induction ps generalizing ps' with
  | nil => simp [TaskList.updateTask] at hu
  | cons p ps ih =>
    obtain ⟨n, ts⟩ := p
    cases hin : TaskList.findTaskIn i ts with
    | some u =>
      obtain ⟨ts', hts'⟩ := updateTaskIn_isSome i f hin
      simp [TaskList.findTask, hin] at ht
      simp [TaskList.updateTask, hts'] at hu
      subst ht
      subst hu
      simp [TaskList.findTask, updateTaskIn_some_find i f hf hts' hin]
    | none =>
      have hun : TaskList.updateTaskIn i f ts = none :=
        (updateTaskIn_eq_none i f ts).mpr hin
      simp [TaskList.findTask, hin] at ht
      simp [TaskList.updateTask, hun] at hu
      obtain ⟨ps₂, hps₂, rfl⟩ := hu
      simp [TaskList.findTask, hin]
      exact ih hps₂ ht

theorem updateTask_twice (i : Int) (f g : Task → Task)
    (hf : ∀ u, (f u).id = u.id) {ps ps' : List (String × List Task)}
    (hu : TaskList.updateTask i f ps = some ps') :
    TaskList.updateTask i g ps' = TaskList.updateTask i (fun u => g (f u)) ps := by
  induction ps generalizing ps' with
  | nil => simp [TaskList.updateTask] at hu
  | cons p ps ih =>
    obtain ⟨n, ts⟩ := p
    cases hin : TaskList.updateTaskIn i f ts with
    | some ts' =>
      simp [TaskList.updateTask, hin] at hu
      subst hu
      have h2 : ∃ ts₂, TaskList.updateTaskIn i (fun u => g (f u)) ts = some ts₂ := by
        cases he : TaskList.updateTaskIn i (fun u => g (f u)) ts with
        | some ts₂ => exact ⟨ts₂, rfl⟩
        | none =>
          rw [updateTaskIn_eq_none, ← updateTaskIn_eq_none i f ts] at he
          simp [hin] at he
      obtain ⟨ts₂, hts₂⟩ := h2
      have hcomp := updateTaskIn_twice i f g hf hin
      simp [TaskList.updateTask, hcomp, hts₂]
    | none =>
      have h2 : TaskList.updateTaskIn i (fun u => g (f u)) ts = none := by
        rw [updateTaskIn_eq_none, ← updateTaskIn_eq_none i f ts]
        exact hin
      simp [TaskList.updateTask, hin] at hu
      obtain ⟨ps₂, hps₂, rfl⟩ := hu
      have hg : TaskList.updateTaskIn i g ts = none := by
        rw [updateTaskIn_eq_none, ← updateTaskIn_eq_none i f ts]
        exact hin
      simp [TaskList.updateTask, hg, h2, ih hps₂]

theorem mutateTaskBy_found (l : TaskList) (s : String) (i : Int) (t : Task)
    (f : Task → Task) (hf : ∀ u, (f u).id = u.id)
    (hs : NewIdentifier s = some i)
    (ht : TaskList.findTask i l.projectTasks = some t) :
    ∃ ps', TaskList.updateTask i f l.projectTasks = some ps' ∧
      l.mutateTaskBy s f = { l with projectTasks := ps' } ∧
      TaskList.findTask i ps' = some (f t) := by
  obtain ⟨ps', hps'⟩ := updateTask_isSome i f ht
  exact ⟨ps', hps', by simp [TaskList.mutateTaskBy, hs, hps'],
    updateTask_some_find i f hf hps' ht⟩

/-- C3: adding a task to a nonexistent project prints a project-not-found
message and changes nothing else — the registry is identical, the ID
counter has not advanced, and a subsequent `addTask` produces exactly the
registry and counter it would have produced without the failed attempt. -/
theorem addTask_missing_project (l : TaskList) (p desc : String)
    (h : alistGet l.projectTasks p = none) :
    (l.addTask p desc).projectTasks = l.projectTasks ∧
    (l.addTask p desc).lastID = l.lastID ∧
    (l.addTask p desc).out = l.out ++
      ["Could not find a project with the name \"" ++ p ++ "\".\n"] ∧
    ∀ q d2, ((l.addTask p desc).addTask q d2).projectTasks =
        (l.addTask q d2).projectTasks ∧
      ((l.addTask p desc).addTask q d2).lastID = (l.addTask q d2).lastID := by
  have heq : l.addTask p desc = { l with out := l.out ++
      ["Could not find a project with the name \"" ++ p ++ "\".\n"] } := by
    simp [TaskList.addTask, h]
  refine ⟨by rw [heq], by rw [heq], by rw [heq], fun q d2 => ?_⟩
  rw [heq]
  cases halist : alistGet l.projectTasks q with
  | none => simp [TaskList.addTask, halist]
  | some ts => simp [TaskList.addTask, TaskList.nextID, halist]

/-- Witness for C3: `add task ghost do nothing` on the empty registry. -/
theorem addTask_missing_project_witness :
    alistGet NewTaskList.projectTasks "ghost" = none ∧
    (NewTaskList.addTask "ghost" "do nothing").projectTasks =
      NewTaskList.projectTasks ∧
    (NewTaskList.addTask "ghost" "do nothing").lastID = NewTaskList.lastID := by
  have h : alistGet NewTaskList.projectTasks "ghost" = none := by rfl
  exact ⟨h, (addTask_missing_project NewTaskList "ghost" "do nothing" h).1,
    (addTask_missing_project NewTaskList "ghost" "do nothing" h).2.1⟩

/-- C9: `TaskList.deadline` validates the date before the id.  When the
date is malformed the command returns silently: the state — output sink
included — is completely unchanged, whatever the id argument is.  Only
when the date parses is the id looked up, and on success the task's
deadline is overwritten with the parsed date. -/
theorem deadline_checks_date_before_id (l : TaskList) (idS dateS : String) :
    (NewDeadline dateS = none → l.deadline idS dateS = l) ∧
    ∀ d i t, NewDeadline dateS = some d → NewIdentifier idS = some i →
      TaskList.findTask i l.projectTasks = some t →
      (l.deadline idS dateS).out = l.out ∧
      (l.deadline idS dateS).lastID = l.lastID ∧
      TaskList.findTask i (l.deadline idS dateS).projectTasks =
        some { t with deadline := some d } := by
  constructor
  · intro h
    simp [TaskList.deadline, h]
  · intro d i t hd hi ht
    obtain ⟨ps', hup, heq, hfind⟩ :=
      mutateTaskBy_found l idS i t (fun u => { u with deadline := some d })
        (fun u => rfl) hi ht
    simp [TaskList.deadline, hd, heq, hfind]

/-- Witness for C9: on `sample`, a malformed date leaves the state
untouched even though the id is malformed too, while a well-formed date on
task 1 sets its deadline. -/
theorem deadline_checks_date_before_id_witness :
    NewDeadline "tomorrow" = none ∧
    sample.deadline "oops" "tomorrow" = sample ∧
    NewDeadline "2024-03-05" = some ⟨2024, 3, 5⟩ ∧
    NewIdentifier "1" = some 1 ∧
    TaskList.findTask 1 sample.projectTasks = some (NewTask 1 "milk" false) ∧
    TaskList.findTask 1 (sample.deadline "1" "2024-03-05").projectTasks =
      some { NewTask 1 "milk" false with deadline := some ⟨2024, 3, 5⟩ } := by
  refine ⟨by rfl, (deadline_checks_date_before_id sample "oops" "tomorrow").1
      (by rfl), by rfl, by rfl, by rfl, ?_⟩
  exact ((deadline_checks_date_before_id sample "1" "2024-03-05").2
    ⟨2024, 3, 5⟩ 1 (NewTask 1 "milk" false) (by rfl) (by rfl) (by rfl)).2.2

theorem setDone_setDone (l : TaskList) (s : String) (i : Int) (t : Task)
    (b b' : Bool) (hs : NewIdentifier s = some i)
    (ht : TaskList.findTask i l.projectTasks = some t) :
    (l.setDone s b).setDone s b' = l.setDone s b' := by
  obtain ⟨ps', hup, heq, hfind⟩ :=
    mutateTaskBy_found l s i t (fun u => { u with done := b }) (fun u => rfl) hs ht
  obtain ⟨ps₂, hup₂, heq₂, hfind₂⟩ :=
    mutateTaskBy_found l s i t (fun u => { u with done := b' }) (fun u => rfl) hs ht
  have e1 : l.setDone s b = { l with projectTasks := ps' } := heq
  have e2 : l.setDone s b' = { l with projectTasks := ps₂ } := heq₂
  rw [e1, e2]
  have hup' : TaskList.updateTask i (fun u => ({ u with done := b' } : Task)) ps' =
      some ps₂ := by
    have hcomp := updateTask_twice i (fun u => ({ u with done := b } : Task))
      (fun u => ({ u with done := b' } : Task)) (fun u => rfl) hup
    rw [hcomp]
    exact hup₂
  simp [TaskList.setDone, TaskList.mutateTaskBy, hs, hup']

/-- C7: for a task that exists in the registry, `check` on its id sets the
done flag to true and `uncheck` sets it to false, without touching the
output or the counter; each operation is idempotent, `check` then
`uncheck` equals plain `uncheck` (so the task ends with done = false, and
`check` twice ends with done = true), and repeating either operation any
number of times equals performing it once. -/
theorem check_uncheck_idempotent (l : TaskList) (s : String) (i : Int)
    (t : Task) (hs : NewIdentifier s = some i)
    (ht : TaskList.findTask i l.projectTasks = some t) :
    ((l.check s).out = l.out ∧ (l.check s).lastID = l.lastID ∧
      TaskList.findTask i (l.check s).projectTasks = some { t with done := true }) ∧
    ((l.uncheck s).out = l.out ∧ (l.uncheck s).lastID = l.lastID ∧
      TaskList.findTask i (l.uncheck s).projectTasks = some { t with done := false }) ∧
    (l.check s).check s = l.check s ∧
    (l.uncheck s).uncheck s = l.uncheck s ∧
    (l.check s).uncheck s = l.uncheck s ∧
    (l.uncheck s).check s = l.check s ∧
    (∀ n, (fun x => TaskList.check x s)^[n + 1] l = l.check s) ∧
    (∀ n, (fun x => TaskList.uncheck x s)^[n + 1] l = l.uncheck s) := by
  obtain ⟨ps', hup, heq, hfind⟩ :=
    mutateTaskBy_found l s i t (fun u => { u with done := true }) (fun u => rfl) hs ht
  obtain ⟨ps₂, hup₂, heq₂, hfind₂⟩ :=
    mutateTaskBy_found l s i t (fun u => { u with done := false }) (fun u => rfl) hs ht
  have hcc : (l.check s).check s = l.check s :=
    setDone_setDone l s i t true true hs ht
  have huu : (l.uncheck s).uncheck s = l.uncheck s :=
    setDone_setDone l s i t false false hs ht
  refine ⟨⟨by rw [show l.check s = _ from heq], by rw [show l.check s = _ from heq],
      by rw [show l.check s = _ from heq]; exact hfind⟩,
    ⟨by rw [show l.uncheck s = _ from heq₂], by rw [show l.uncheck s = _ from heq₂],
      by rw [show l.uncheck s = _ from heq₂]; exact hfind₂⟩,
    hcc, huu, setDone_setDone l s i t true false hs ht,
    setDone_setDone l s i t false true hs ht, ?_, ?_⟩
  · intro n
    induction n with
    | zero => simp
    | succ n ihn =>
      rw [Function.iterate_succ_apply', ihn]
      exact hcc
  · intro n
    induction n with
    | zero => simp
    | succ n ihn =>
      rw [Function.iterate_succ_apply', ihn]
      exact huu

/-- Witness for C7 on `sample`, whose task 1 is `milk`, not done. -/
theorem check_uncheck_idempotent_witness :
    NewIdentifier "1" = some 1 ∧
    TaskList.findTask 1 sample.projectTasks = some (NewTask 1 "milk" false) ∧
    TaskList.findTask 1 (sample.check "1").projectTasks =
      some { NewTask 1 "milk" false with done := true } ∧
    (sample.check "1").check "1" = sample.check "1" ∧
    (sample.check "1").uncheck "1" = sample.uncheck "1" := by
  have h := check_uncheck_idempotent sample "1" 1 (NewTask 1 "milk" false)
    (by rfl) (by rfl)
  exact ⟨by rfl, by rfl, h.1.2.2, h.2.2.1, h.2.2.2.2.1⟩

/-- C10: for an existing project, `add task <project>` with no description
tokens succeeds rather than reporting a usage error: it allocates the next
id and appends a task whose description is the empty string and whose done
flag is false. -/
theorem add_task_no_description (ref : Date) (l : TaskList) (line p : String)
    (ts : List Task) (hline : splitSpace line = ["add", "task", p])
    (hp : alistGet l.projectTasks p = some ts) :
    TaskList.execute ref l line = TaskList.ExecOutcome.ok { l with
      lastID := int64wrap (l.lastID + 1),
      projectTasks := alistInsert l.projectTasks p
        (ts ++ [NewTask (int64wrap (l.lastID + 1)) "" false]) } := by
  unfold TaskList.execute
  rw [hline]
  simp [TaskList.add, TaskList.addTask, TaskList.nextID, hp, String.intercalate]

/-- Witness for C10: `add task work` on a registry holding the empty
project `work`. -/
theorem add_task_no_description_witness :
    splitSpace "add task work" = ["add", "task", "work"] ∧
    TaskList.execute date0 (NewTaskList.addProject "work") "add task work" =
      TaskList.ExecOutcome.ok
        ⟨[("work", [NewTask 1 "" false])], 1, []⟩ := by
  have h := add_task_no_description date0 (NewTaskList.addProject "work")
    "add task work" "work" [] (by rfl) (by rfl)
  refine ⟨by rfl, ?_⟩
  rw [h]
  rfl

theorem flatMap_sublist {α β : Type} (xs : List α) (f g : α → List β)
    (h : ∀ a, List.Sublist (g a) (f a)) :
    List.Sublist (xs.flatMap g) (xs.flatMap f) := by
  induction xs with
  | nil => simp
  | cons a xs ih =>
    simp only [List.flatMap_cons]
    exact (h a).append ih

/-- C5: the output of `today` is the output of `show` with some task lines
removed.  Both render each task line with the identical format, both walk
the projects in the same lexicographically sorted order, within each
project `today` keeps exactly the tasks whose deadline predicate holds (a
sublist of `show`'s task lines in the same relative order), and the whole
write sequence of `today` is a sublist of the write sequence of `show`. -/
theorem today_is_filtered_show (ref : Date) (l : TaskList) :
    (l.today ref).out = l.out ++ TaskList.todayLines ref l ∧
    (l.show').out = l.out ++ TaskList.showLines l ∧
    (∀ t : Task, TaskList.todayTaskLine t = TaskList.showTaskLine t) ∧
    List.Sorted (· ≤ ·) (TaskList.sortedProjects l.projectTasks) ∧
    (∀ ts : List Task,
      List.Sublist
        ((ts.filter (Task.IsPreviousToCurrentDate ref)).map TaskList.todayTaskLine)
        (ts.map TaskList.showTaskLine)) ∧
    List.Sublist (TaskList.todayLines ref l) (TaskList.showLines l) := by
  have hline : ∀ t : Task, TaskList.todayTaskLine t = TaskList.showTaskLine t :=
    fun t => rfl
  have hts : ∀ ts : List Task,
      List.Sublist
        ((ts.filter (Task.IsPreviousToCurrentDate ref)).map TaskList.todayTaskLine)
        (ts.map TaskList.showTaskLine) := by
    intro ts
    have h1 : (ts.filter (Task.IsPreviousToCurrentDate ref)).map TaskList.todayTaskLine
        = (ts.filter (Task.IsPreviousToCurrentDate ref)).map TaskList.showTaskLine :=
      List.map_congr_left fun t _ => hline t
    rw [h1]
    exact (List.filter_sublist ts).map TaskList.showTaskLine
  refine ⟨rfl, rfl, hline, List.sorted_insertionSort _ _, hts, ?_⟩
  unfold TaskList.todayLines TaskList.showLines
  refine flatMap_sublist _ _ _ fun p => ?_
  exact List.Sublist.cons₂ _ ((hts _).append (List.Sublist.refl _))

theorem idsOf_insert_nil (ps : List (String × List Task)) (name : String) :
    List.Sublist (idsOf (alistInsert ps name [])) (idsOf ps) := by
  induction ps with
  | nil => simp [alistInsert, idsOf]
  | cons p rest ih =>
    obtain ⟨n, ts⟩ := p
    by_cases h : n = name
    · simp only [alistInsert, if_pos h, idsOf, List.flatMap_cons, List.map_nil,
        List.nil_append]
      exact List.sublist_append_right _ _
    · simp only [alistInsert, if_neg h, idsOf, List.flatMap_cons]
      exact (List.Sublist.refl _).append ih

theorem idsOf_insert_append (ps : List (String × List Task)) (p : String)
    (ts : List Task) (t : Task) (h : alistGet ps p = some ts) :
    List.Perm (idsOf (alistInsert ps p (ts ++ [t]))) (idsOf ps ++ [t.id]) := by
  induction ps with
  | nil => simp [alistGet] at h
  | cons q rest ih =>
    obtain ⟨n, us⟩ := q
    by_cases hn : n = p
    · simp only [alistGet, if_pos hn] at h
      injection h with h
      subst h
      simp only [alistInsert, if_pos hn, idsOf, List.flatMap_cons, List.map_append,
        List.map_cons, List.map_nil, List.append_assoc]
      exact List.Perm.append_left _ List.perm_append_comm
    · simp only [alistGet, if_neg hn] at h
      simp only [alistInsert, if_neg hn, idsOf, List.flatMap_cons, List.append_assoc]
      exact List.Perm.append_left _ (ih h)

theorem updateTaskIn_map_id (i : Int) (f : Task → Task)
    (hf : ∀ u, (f u).id = u.id) {ts ts' : List Task}
    (hu : TaskList.updateTaskIn i f ts = some ts') :
    ts'.map Task.id = ts.map Task.id := by
  induction ts generalizing ts' with
  | nil => simp [TaskList.updateTaskIn] at hu
  | cons u us ih =>
    by_cases h : u.GetID = i
    · simp [TaskList.updateTaskIn, h] at hu
      subst hu
      simp [hf u]
    · simp [TaskList.updateTaskIn, h] at hu
      obtain ⟨us', hus', rfl⟩ := hu
      simp [ih hus']

theorem updateTask_idsOf (i : Int) (f : Task → Task)
    (hf : ∀ u, (f u).id = u.id) {ps ps' : List (String × List Task)}
    (hu : TaskList.updateTask i f ps = some ps') :
    idsOf ps' = idsOf ps := by
  induction ps generalizing ps' with
  | nil => simp [TaskList.updateTask] at hu
  | cons p ps ih =>
    obtain ⟨n, ts⟩ := p
    cases hin : TaskList.updateTaskIn i f ts with
    | some ts' =>
      simp [TaskList.updateTask, hin] at hu
      subst hu
      simp [idsOf, updateTaskIn_map_id i f hf hin]
    | none =>
      simp [TaskList.updateTask, hin] at hu
      obtain ⟨ps₂, hps₂, rfl⟩ := hu
      have hih := ih hps₂
      simp only [idsOf, List.flatMap_cons] at hih ⊢
      rw [hih]

theorem stepOK_same (l l' : TaskList)
    (hp : idsOf l'.projectTasks = idsOf l.projectTasks)
    (hid : l'.lastID = l.lastID) : StepOK l l' := by
  refine ⟨fun hI => ?_, le_of_eq hid.symm, Or.inl hid,
    fun i hi => Or.inl (hp ▸ hi)⟩
  obtain ⟨h0, hnd, hb⟩ := hI
  rw [Inv, hp, hid]
  exact ⟨h0, hnd, hb⟩

theorem stepOK_refl (l : TaskList) : StepOK l l :=
  stepOK_same l l rfl rfl

theorem stepOK_addProject (l : TaskList) (name : String) :
    StepOK l (l.addProject name) := by
  have hsub : List.Sublist (idsOf (l.addProject name).projectTasks)
      (idsOf l.projectTasks) := idsOf_insert_nil l.projectTasks name
  refine ⟨fun hI => ?_, le_refl _, Or.inl rfl, fun i hi => Or.inl (hsub.subset hi)⟩
  obtain ⟨h0, hnd, hb⟩ := hI
  exact ⟨h0, hnd.sublist hsub, fun i hi => hb i (hsub.subset hi)⟩

theorem stepOK_mutate (l : TaskList) (s : String) (f : Task → Task)
    (hf : ∀ u, (f u).id = u.id) : StepOK l (l.mutateTaskBy s f) := by
  cases hs : NewIdentifier s with
  | none =>
    have e : l.mutateTaskBy s f =
        { l with out := l.out ++ ["Invalid ID \"" ++ s ++ "\".\n"] } := by
      simp [TaskList.mutateTaskBy, hs]
    rw [e]
    exact stepOK_same _ _ rfl rfl
  | some i =>
    cases hu : TaskList.updateTask i f l.projectTasks with
    | none =>
      have e : l.mutateTaskBy s f = { l with out := l.out ++
          ["Task with ID \"" ++ toString i ++ "\" not found.\n"] } := by
        simp [TaskList.mutateTaskBy, hs, hu]
      rw [e]
      exact stepOK_same _ _ rfl rfl
    | some ps' =>
      have e : l.mutateTaskBy s f = { l with projectTasks := ps' } := by
        simp [TaskList.mutateTaskBy, hs, hu]
      rw [e]
      exact stepOK_same _ _ (updateTask_idsOf i f hf hu) rfl

theorem stepOK_fresh (l : TaskList) (ps' : List (String × List Task))
    (out' : List String)
    (hperm : List.Perm (idsOf ps') (idsOf l.projectTasks ++ [l.lastID + 1])) :
    StepOK l ⟨ps', l.lastID + 1, out'⟩ := by
  refine ⟨fun hI => ?_, ?_, Or.inr rfl, fun i hi => ?_⟩
  · obtain ⟨h0, hnd, hb⟩ := hI
    refine ⟨?_, ?_, ?_⟩
    · show (0 : Int) ≤ l.lastID + 1
      omega
    · show (idsOf ps').Nodup
      rw [hperm.nodup_iff, List.nodup_append]
      refine ⟨hnd, List.nodup_singleton _, fun i hi hj => ?_⟩
      have hle := (hb i hi).2
      simp at hj
      omega
    · intro i hi
      show 0 < i ∧ i ≤ l.lastID + 1
      have hm := hperm.subset hi
      rw [List.mem_append] at hm
      rcases hm with hold | hnew
      · have := hb i hold
        constructor <;> omega
      · simp at hnew
        constructor <;> omega
  · show l.lastID ≤ l.lastID + 1
    omega
  · have hm := hperm.subset hi
    rw [List.mem_append] at hm
    rcases hm with hold | hnew
    · exact Or.inl hold
    · simp at hnew
      exact Or.inr hnew

theorem int64wrap_eq_self (n : Int) (h1 : -(2 ^ 63) ≤ n) (h2 : n < 2 ^ 63) :
    int64wrap n = n := by
  unfold int64wrap
  omega

theorem stepOK_addTask (l : TaskList) (p desc : String) (h0 : 0 ≤ l.lastID)
    (hlt : l.lastID < 2 ^ 63 - 1) : StepOK l (l.addTask p desc) := by
  cases h : alistGet l.projectTasks p with
  | none =>
    have e : l.addTask p desc = { l with out := l.out ++
        ["Could not find a project with the name \"" ++ p ++ "\".\n"] } := by
      simp [TaskList.addTask, h]
    rw [e]
    exact stepOK_same _ _ rfl rfl
  | some ts =>
    have hw : int64wrap (l.lastID + 1) = l.lastID + 1 :=
      int64wrap_eq_self _ (by omega) (by omega)
    have e : l.addTask p desc =
        ⟨alistInsert l.projectTasks p (ts ++ [NewTask (l.lastID + 1) desc false]),
          l.lastID + 1, l.out⟩ := by
      simp [TaskList.addTask, TaskList.nextID, h, hw]
    rw [e]
    exact stepOK_fresh l _ _ (idsOf_insert_append l.projectTasks p ts _ h)

theorem stepOK_add (l : TaskList) (args : List String) (h0 : 0 ≤ l.lastID)
    (hlt : l.lastID < 2 ^ 63 - 1) {l' : TaskList}
    (h : l.add args = some l') : StepOK l l' := by
  unfold TaskList.add at h
  match args with
  | [] => cases h
  | [_] => cases h
  | sub :: projectName :: rest =>
    by_cases hp : sub = "project"
    · simp only [if_pos hp] at h
      injection h with h
      subst h
      exact stepOK_addProject l projectName
    · by_cases htk : sub = "task"
      · simp only [if_neg hp, if_pos htk] at h
        injection h with h
        subst h
        exact stepOK_addTask l projectName _ h0 hlt
      · simp only [if_neg hp, if_neg htk] at h
        injection h with h
        subst h
        exact stepOK_refl l

theorem stepOK_deadline (l : TaskList) (idS dateS : String) :
    StepOK l (l.deadline idS dateS) := by
  unfold TaskList.deadline
  cases NewDeadline dateS with
  | none => exact stepOK_refl l
  | some d => exact stepOK_mutate l idS _ (fun u => rfl)

theorem execute_stepOK (ref : Date) (l : TaskList) (line : String)
    (h0 : 0 ≤ l.lastID) (hlt : l.lastID < 2 ^ 63 - 1) :
    StepOK l (TaskList.execute ref l line).state := by
  unfold TaskList.execute
  cases hsp : splitSpace line with
  | nil => exact stepOK_refl l
  | cons command rest =>
    by_cases hshow : command = "show"
    · subst hshow
      exact stepOK_same _ _ rfl rfl
    · by_cases hadd : command = "add"
      · subst hadd
        cases rest with
        | nil => exact stepOK_refl l
        | cons a as =>
          cases hres : l.add (a :: as) with
          | none => simp [hres, TaskList.ExecOutcome.state]; exact stepOK_refl l
          | some l' =>
            simp [hres, TaskList.ExecOutcome.state]
            exact stepOK_add l (a :: as) h0 hlt hres
      · by_cases hch : command = "check"
        · subst hch
          cases rest with
          | nil => exact stepOK_refl l
          | cons idS _ =>
            exact stepOK_mutate l idS _ (fun u => rfl)
        · by_cases hunch : command = "uncheck"
          · subst hunch
            cases rest with
            | nil => exact stepOK_refl l
            | cons idS _ =>
              exact stepOK_mutate l idS _ (fun u => rfl)
          · by_cases hhelp : command = "help"
            · subst hhelp
              exact stepOK_same _ _ rfl rfl
            · by_cases hdl : command = "deadline"
              · subst hdl
                match rest with
                | [] => exact stepOK_refl l
                | [_] => exact stepOK_refl l
                | idS :: dateS :: _ => exact stepOK_deadline l idS dateS
              · by_cases htd : command = "today"
                · subst htd
                  exact stepOK_same _ _ rfl rfl
                · simp only [TaskList.execute, hshow, hadd, hch, hunch, hhelp,
                    hdl, htd]
                  exact stepOK_same _ _ rfl rfl

/-- C4, amended: task ids are assigned in strictly increasing order
starting from 1, are never reused, and are unique across the whole
registry — as long as the `int64` counter has not reached its maximum
`2^63 - 1` (fewer than `2^63 - 1` ids allocated in the session).  The
counter starts at 0 in the fresh session state; every line executed while
the counter is below the maximum preserves the invariant that all stored
ids are distinct, positive and at most the counter, never decreases the
counter, advances it by at most one, and any id present afterwards was
either already present or equals the new counter value (hence exceeds
every id stored before).  Once the counter reaches the maximum, the next
allocation wraps (see the counterexample to the unconditional claim). -/
theorem ids_strictly_increasing :
    NewTaskList.lastID = 0 ∧ Inv NewTaskList ∧
    ∀ ref l line, Inv l → l.lastID < 2 ^ 63 - 1 →
      Inv (TaskList.execute ref l line).state ∧
      l.lastID ≤ (TaskList.execute ref l line).state.lastID ∧
      ((TaskList.execute ref l line).state.lastID = l.lastID ∨
        (TaskList.execute ref l line).state.lastID = l.lastID + 1) ∧
      ∀ i ∈ idsOf (TaskList.execute ref l line).state.projectTasks,
        i ∈ idsOf l.projectTasks ∨
          i = (TaskList.execute ref l line).state.lastID := by
  refine ⟨rfl, ⟨le_refl 0, by simp [idsOf, NewTaskList], by simp [idsOf, NewTaskList]⟩,
    fun ref l line hI hlt => ?_⟩
  obtain ⟨hInv, hmono, hdisj, hmem⟩ := execute_stepOK ref l line hI.1 hlt
  exact ⟨hInv hI, hmono, hdisj, hmem⟩

/-- Witness for C4: the invariant holds for `sample`, whose counter 1 is
far below the `int64` maximum, and is preserved when the line
`add task w` (which allocates id 2) executes on it. -/
theorem ids_strictly_increasing_witness :
    Inv sample ∧ sample.lastID < 2 ^ 63 - 1 ∧
    Inv (TaskList.execute date0 sample "add task w").state ∧
    sample.lastID ≤ (TaskList.execute date0 sample "add task w").state.lastID := by
  have hI : Inv sample := ⟨by decide, by decide, by decide⟩
  have hlt : sample.lastID < 2 ^ 63 - 1 := by decide
  have h := ids_strictly_increasing.2.2 date0 sample "add task w" hI hlt
  exact ⟨hI, hlt, h.1, h.2.1⟩

theorem addTask_found (l : TaskList) (p desc : String) (ts : List Task)
    (h : alistGet l.projectTasks p = some ts) :
    l.addTask p desc =
      ⟨alistInsert l.projectTasks p
          (ts ++ [NewTask (int64wrap (l.lastID + 1)) desc false]),
        int64wrap (l.lastID + 1), l.out⟩ := by
  simp [TaskList.addTask, TaskList.nextID, h]

theorem afterAdds_succ (m : Nat) :
    afterAdds (m + 1) = (afterAdds m).addTask "w" "" := rfl

theorem afterAdds_spec : ∀ n : Nat, (n : Int) ≤ 2 ^ 63 - 2 →
    (afterAdds n).lastID = 1 + (n : Int) ∧
    ∃ ts, alistGet (afterAdds n).projectTasks "w" = some ts := by
  intro n
  induction n with
  | zero =>
    exact fun _ => ⟨by decide, [NewTask 1 "milk" false], by decide⟩
  | succ n ih =>
    intro hle
    obtain ⟨hid, ts, hts⟩ := ih (by push_cast at hle ⊢; omega)
    have hw : int64wrap ((afterAdds n).lastID + 1) = (afterAdds n).lastID + 1 := by
      rw [hid]
      refine int64wrap_eq_self _ (by push_cast; omega) ?_
      have : (n : Int) + 1 ≤ 2 ^ 63 - 2 := by push_cast at hle; omega
      omega
    have he : (afterAdds n).addTask "w" "" =
        ⟨alistInsert (afterAdds n).projectTasks "w"
            (ts ++ [NewTask ((afterAdds n).lastID + 1) "" false]),
          (afterAdds n).lastID + 1, (afterAdds n).out⟩ := by
      simp [TaskList.addTask, TaskList.nextID, hts, hw]
    rw [afterAdds_succ, he]
    refine ⟨?_, ts ++ [NewTask ((afterAdds n).lastID + 1) "" false],
      alistGet_insert_self _ _ _⟩
    rw [hid]
    push_cast
    ring

/-- Counterexample to C4 as stated: in the concrete session `add project
w`, `add task w`, followed by `2^63 - 1` further `add task w` lines, the
`int64` counter reaches its maximum `2^63 - 1` and the next allocation
wraps: the task appended by the last line carries the id `-2^63`, which is
smaller than the id 1 assigned first — so across this (astronomically long
but finite) command sequence ids are neither strictly increasing nor
positive. -/
theorem ids_overflow_counterexample :
    (afterAdds (2 ^ 63 - 2)).lastID = 2 ^ 63 - 1 ∧
    alistGet (afterAdds (2 ^ 63 - 1)).projectTasks "w" =
      some ((alistGet (afterAdds (2 ^ 63 - 2)).projectTasks "w").getD [] ++
        [NewTask (-(2 ^ 63)) "" false]) ∧
    (afterAdds (2 ^ 63 - 1)).lastID = -(2 ^ 63) ∧
    (afterAdds (2 ^ 63 - 1)).lastID < (afterAdds (2 ^ 63 - 2)).lastID ∧
    (-(2 ^ 63) : Int) < 1 := by
  obtain ⟨hid, ts, hts⟩ := afterAdds_spec (2 ^ 63 - 2) (by decide)
  have hmax : (afterAdds (2 ^ 63 - 2)).lastID = 2 ^ 63 - 1 := by
    rw [hid]
    decide
  have hsucc : (2 : Nat) ^ 63 - 1 = (2 ^ 63 - 2) + 1 := by decide
  have hstep : afterAdds (2 ^ 63 - 1) = (afterAdds (2 ^ 63 - 2)).addTask "w" "" := by
    rw [hsucc, afterAdds_succ]
  have hw : int64wrap ((afterAdds (2 ^ 63 - 2)).lastID + 1) = -(2 ^ 63) := by
    rw [hmax]
    decide
  have he := addTask_found (afterAdds (2 ^ 63 - 2)) "w" "" ts hts
  rw [hw] at he
  refine ⟨hmax, ?_, ?_, ?_, by decide⟩
  · rw [hstep, he, hts]
    simp [alistGet_insert_self]
  · rw [hstep, he]
  · rw [hstep, he, hmax]
    show (-(2 ^ 63) : Int) < 2 ^ 63 - 1
    decide

end Golang
